import Mathlib

/-!
Verification of the gesture/transform core of the `react-native-image-zoom`
component.  The development shallowly embeds the source modules:

* the animation-completion aggregator (`useAnimationEnd`): `onAnimationEnd`,
  `isAnimationComplete`, the per-session record map;
* the limit calculator (`limits.right/left/bottom/top`), `clamp` and `sum`;
* the gesture/transform engine (`useGestures`): `reset`, `moveIntoView`,
  `zoom`, the pinch `onUpdate` handler, the pan-only `onTouchesDown`
  interception and the per-axis decay completion conditions;
* the pan gesture counter (`usePanGestureCount`).

Numbers are modelled as rationals.  Reanimated shared values are modelled by
plain state fields; a `withTiming` animation is modelled by its target value
together with, where the source attaches a completion callback, an `Anim`
record carrying the interaction id and target name it routes through the
aggregator.  A fully settled, uninterrupted animation delivers its target
value and `finished = true`.
-/

namespace ImageZoom

/-! ## Definitions: the animation-completion aggregator (`useAnimationEnd`) -/

/-- The five animated targets tracked by the completion aggregator
(`ANIMATION_VALUE` in src/types). -/
inductive ANIMATION_VALUE
  | SCALE
  | FOCAL_X
  | FOCAL_Y
  | TRANSLATE_X
  | TRANSLATE_Y
  deriving DecidableEq, Repr

/-- The fixed array `ANIMATION_VALUES` from `useAnimationEnd`. -/
def ANIMATION_VALUES : List ANIMATION_VALUE :=
  [.SCALE, .FOCAL_X, .FOCAL_Y, .TRANSLATE_X, .TRANSLATE_Y]

/-- One recorded completion: `{ lastValue, finished?, current? }`. -/
structure EndValue where
  lastValue : ℚ
  finished : Option Bool
  current : Option ℚ
  deriving DecidableEq, Repr

/-- `PartialEndValues`: a partial record from animation target to its
completion entry (`Partial<Record<ANIMATION_VALUE, ...>>`). -/
structure PartialEndValues where
  scale : Option EndValue
  focalX : Option EndValue
  focalY : Option EndValue
  translateX : Option EndValue
  translateY : Option EndValue
  deriving DecidableEq, Repr

/-- The empty record `{}`. -/
def PartialEndValues.empty : PartialEndValues := ⟨none, none, none, none, none⟩

/-- Key lookup `endValues[item]`. -/
def PartialEndValues.get (r : PartialEndValues) : ANIMATION_VALUE → Option EndValue
  | .SCALE => r.scale
  | .FOCAL_X => r.focalX
  | .FOCAL_Y => r.focalY
  | .TRANSLATE_X => r.translateX
  | .TRANSLATE_Y => r.translateY

/-- Key update `endValues[value] = entry`. -/
def PartialEndValues.set (r : PartialEndValues) (v : ANIMATION_VALUE) (e : EndValue) :
    PartialEndValues :=
  match v with
  | .SCALE => { r with scale := some e }
  | .FOCAL_X => { r with focalX := some e }
  | .FOCAL_Y => { r with focalY := some e }
  | .TRANSLATE_X => { r with translateX := some e }
  | .TRANSLATE_Y => { r with translateY := some e }

/-- `Object.values(record)`: the entries actually present. -/
def PartialEndValues.values (r : PartialEndValues) : List EndValue :=
  [r.scale, r.focalX, r.focalY, r.translateX, r.translateY].filterMap id

/-- `isAnimationComplete`: every one of the five targets has an entry. -/
def isAnimationComplete (endValues : PartialEndValues) : Bool :=
  ANIMATION_VALUES.all fun item => (endValues.get item).isSome

/-- The `completed` flag computed in `onAnimationEnd`:
`!Object.values(currentEndValues).some((item) => !item.finished)`
(a JS `undefined` counts as not finished). -/
def aggCompleted (endValues : PartialEndValues) : Bool :=
  !(endValues.values.any fun item => !(item.finished.getD false))

/-- The outer per-session map `InteractionEndValues`, as an association list. -/
abbrev AggState := List (String × PartialEndValues)

/-- Key lookup in the per-session map. -/
def lookupEV : AggState → String → Option PartialEndValues
  | [], _ => none
  | (k, v) :: rest, sid => if k = sid then some v else lookupEV rest sid

/-- Key update in the per-session map. -/
def insertEV : AggState → String → PartialEndValues → AggState
  | [], sid, r => [(sid, r)]
  | (k, v) :: rest, sid, r =>
    if k = sid then (k, r) :: rest else (k, v) :: insertEV rest sid r

/-- `delete endValues.value[interactionId]`. -/
def eraseEV : AggState → String → AggState
  | [], _ => []
  | (k, v) :: rest, sid => if k = sid then rest else (k, v) :: eraseEV rest sid

/-- The `onAnimationEnd` handler of `useAnimationEnd`.  `hasCallback` models
whether the optional `onResetAnimationEnd` callback was supplied; the second
component of the result is the `(completed, record)` payload handed to that
callback via `runOnJS`, when it fires. -/
def onAnimationEnd (hasCallback : Bool) (st : AggState) (interactionId : String)
    (value : ANIMATION_VALUE) (lastValue : ℚ) (finished : Option Bool)
    (current : Option ℚ) : AggState × Option (Bool × PartialEndValues) :=
  if hasCallback then
    let currentEndValues := (lookupEV st interactionId).getD PartialEndValues.empty
    let updatedEndValues := currentEndValues.set value ⟨lastValue, finished, current⟩
    if isAnimationComplete updatedEndValues then
      (eraseEV st interactionId, some (aggCompleted updatedEndValues, updatedEndValues))
    else
      (insertEV st interactionId updatedEndValues, none)
  else
    (st, none)

/-- One animation-end event as delivered to `onAnimationEnd`. -/
structure FeedItem where
  interactionId : String
  value : ANIMATION_VALUE
  lastValue : ℚ
  finished : Option Bool
  current : Option ℚ
  deriving DecidableEq, Repr

/-- Feed a sequence of animation-end events to the aggregator, collecting the
callback invocation (or absence thereof) produced by each event. -/
def runAgg (hasCallback : Bool) :
    AggState → List FeedItem → AggState × List (Option (Bool × PartialEndValues))
  | st, [] => (st, [])
  | st, i :: rest =>
    let step := onAnimationEnd hasCallback st i.interactionId i.value i.lastValue
      i.finished i.current
    let next := runAgg hasCallback step.1 rest
    (next.1, step.2 :: next.2)

/-- The entry `onAnimationEnd` builds from one event. -/
def mkEndValue (i : FeedItem) : EndValue := ⟨i.lastValue, i.finished, i.current⟩

/-- The record obtained by folding a sequence of events into a record. -/
def finalRec (r : PartialEndValues) (inputs : List FeedItem) : PartialEndValues :=
  inputs.foldl (fun acc i => acc.set i.value (mkEndValue i)) r

/-- The targets still missing from a partial record, in canonical order. -/
def missing (r : PartialEndValues) : List ANIMATION_VALUE :=
  ANIMATION_VALUES.filter fun t => (r.get t).isNone

/-! ## Definitions: the gesture/transform engine (`useGestures`) -/

/-- A two-dimensional value (an `{x, y}` pair of shared values). -/
structure Vec where
  x : ℚ
  y : ℚ
  deriving DecidableEq, Repr

/-- The transform state owned by the engine: the shared values
`savedScale`, `scale`, `initialFocal`, `savedFocal`, `focal`,
`savedTranslate`, `translate` of `useGestures`. -/
structure EngineState where
  savedScale : ℚ
  scale : ℚ
  initialFocal : Vec
  savedFocal : Vec
  focal : Vec
  savedTranslate : Vec
  translate : Vec
  deriving DecidableEq, Repr

/-- `clamp(value, min, max) = Math.min(Math.max(min, value), max)`
(src/utils/clamp). -/
def clamp (value min max : ℚ) : ℚ := Min.min (Max.max min value) max

namespace limits

/-- `right(width, scale) = (width * (scale.value - 1)) / 2` (src/utils/limits). -/
def right (width scale : ℚ) : ℚ := width * (scale - 1) / 2

/-- `left = -right`. -/
def left (width scale : ℚ) : ℚ := -right width scale

/-- `bottom(height, scale) = (height * (scale.value - 1)) / 2`. -/
def bottom (height scale : ℚ) : ℚ := height * (scale - 1) / 2

/-- `top = -bottom`. -/
def top (height scale : ℚ) : ℚ := -bottom height scale

end limits

/-- `sum(...animatedValues)`: reduce with addition from 0 (src/utils/sum). -/
def sum (animatedValues : List ℚ) : ℚ :=
  animatedValues.foldl (fun result animatedValue => result + animatedValue) 0

/-- A timing animation started by `reset()`: the `withTiming` target value,
the last value recorded before the animation started, and the interaction id
and target name under which its completion is routed through the
aggregator's `onAnimationEnd`. -/
structure Anim where
  interactionId : String
  value : ANIMATION_VALUE
  toValue : ℚ
  lastValue : ℚ
  deriving DecidableEq, Repr

/-- `reset()` from `useGestures`: reads the current interaction id,
synchronously zeroes `savedScale` (to 1), `initialFocal`, `savedFocal` and
`savedTranslate`, and starts five timing animations
(scale to 1, focal.x to 0, focal.y to 0, translate.x to 0, translate.y to 0),
each routing its completion through `onAnimationEnd` under the interaction id
and its target name. -/
def reset (st : EngineState) (interactionId : String) : EngineState × List Anim :=
  ({ st with
      savedScale := 1
      initialFocal := ⟨0, 0⟩
      savedFocal := ⟨0, 0⟩
      savedTranslate := ⟨0, 0⟩ },
   [⟨interactionId, .SCALE, 1, st.scale⟩,
    ⟨interactionId, .FOCAL_X, 0, st.focal.x⟩,
    ⟨interactionId, .FOCAL_Y, 0, st.focal.y⟩,
    ⟨interactionId, .TRANSLATE_X, 0, st.translate.x⟩,
    ⟨interactionId, .TRANSLATE_Y, 0, st.translate.y⟩])

/-- Settling one animation writes its target value to the animated shared
value it drives. -/
def applyAnim (st : EngineState) (a : Anim) : EngineState :=
  match a.value with
  | .SCALE => { st with scale := a.toValue }
  | .FOCAL_X => { st with focal := ⟨a.toValue, st.focal.y⟩ }
  | .FOCAL_Y => { st with focal := ⟨st.focal.x, a.toValue⟩ }
  | .TRANSLATE_X => { st with translate := ⟨a.toValue, st.translate.y⟩ }
  | .TRANSLATE_Y => { st with translate := ⟨st.translate.x, a.toValue⟩ }

/-- Settling all started animations, none interrupted. -/
def settleAnims (st : EngineState) (anims : List Anim) : EngineState :=
  anims.foldl applyAnim st

/-- The `onAnimationEnd` events produced when every started animation
settles uninterrupted: each reports `finished = true` and its target value
as the current value. -/
def settleFeed (anims : List Anim) : List FeedItem :=
  anims.map fun a => ⟨a.interactionId, a.value, a.lastValue, some true, some a.toValue⟩

/-- The aggregator record accumulated when a `reset()` started from state
`st` settles uninterrupted. -/
def resetRecord (st : EngineState) : PartialEndValues :=
  ⟨some ⟨st.scale, some true, some 1⟩,
   some ⟨st.focal.x, some true, some 0⟩,
   some ⟨st.focal.y, some true, some 0⟩,
   some ⟨st.translate.x, some true, some 0⟩,
   some ⟨st.translate.y, some true, some 0⟩⟩

/-- The pinch `onStart` handler: snapshots `savedScale` and `savedFocal`,
records the gesture's focal point in `initialFocal`. -/
def pinchOnStart (st : EngineState) (focalX focalY : ℚ) : EngineState :=
  { st with
      savedScale := st.scale
      savedFocal := st.focal
      initialFocal := ⟨focalX, focalY⟩ }

/-- The pinch `onUpdate` handler:
`scale = clamp(savedScale * event.scale, minScale, maxScale)` and
`focal = savedFocal + (center - initialFocal) * (scale - savedScale)` on each
axis, where `scale` is the freshly clamped value. -/
def pinchOnUpdate (minScale maxScale : ℚ) (center : Vec) (st : EngineState)
    (eventScale : ℚ) : EngineState :=
  let newScale := clamp (st.savedScale * eventScale) minScale maxScale
  { st with
      scale := newScale
      focal :=
        ⟨st.savedFocal.x + (center.x - st.initialFocal.x) * (newScale - st.savedScale),
         st.savedFocal.y + (center.y - st.initialFocal.y) * (newScale - st.savedScale)⟩ }

/-- `moveIntoView()` from `useGestures`: if `scale > 1`, per axis, when the
combined offset `sum(translate, focal)` exceeds the axis limit, the source
animates translate to that limit and focal to 0 (the animations carry no
completion callback, so they are modelled by their settled target values);
otherwise the axis is untouched.  If `scale <= 1` it calls `reset()`. -/
def moveIntoView (width height : ℚ) (interactionId : String) (st : EngineState) :
    EngineState × List Anim :=
  if st.scale > 1 then
    let rightLimit := limits.right width st.scale
    let leftLimit := -rightLimit
    let bottomLimit := limits.bottom height st.scale
    let topLimit := -bottomLimit
    let totalTranslateX := sum [st.translate.x, st.focal.x]
    let totalTranslateY := sum [st.translate.y, st.focal.y]
    let st1 :=
      if totalTranslateX > rightLimit then
        { st with translate := ⟨rightLimit, st.translate.y⟩, focal := ⟨0, st.focal.y⟩ }
      else if totalTranslateX < leftLimit then
        { st with translate := ⟨leftLimit, st.translate.y⟩, focal := ⟨0, st.focal.y⟩ }
      else st
    let st2 :=
      if totalTranslateY > bottomLimit then
        { st1 with translate := ⟨st1.translate.x, bottomLimit⟩, focal := ⟨st1.focal.x, 0⟩ }
      else if totalTranslateY < topLimit then
        { st1 with translate := ⟨st1.translate.x, topLimit⟩, focal := ⟨st1.focal.x, 0⟩ }
      else st1
    (st2, [])
  else
    reset st interactionId

/-- The two outcomes reported to the programmatic-zoom / double-tap
observers (`ZOOM_TYPE` in src/types). -/
inductive ZOOM_TYPE
  | ZOOM_IN
  | ZOOM_OUT
  deriving DecidableEq, Repr

/-- `zoom({scale, x, y})` from `useGestures`: for a target scale above 1,
notifies the zoom-in observer and animates scale to the target and focal to
`(center - {x, y}) * (scale - 1)` per axis (modelled by the settled targets;
these `withTiming` calls carry no completion callback); otherwise notifies
zoom-out and calls `reset()`. -/
def zoom (center : Vec) (interactionId : String) (st : EngineState)
    (eventScale eventX eventY : ℚ) : ZOOM_TYPE × EngineState × List Anim :=
  if eventScale > 1 then
    (.ZOOM_IN,
     { st with
        scale := eventScale
        focal := ⟨(center.x - eventX) * (eventScale - 1),
                  (center.y - eventY) * (eventScale - 1)⟩ },
     [])
  else
    (.ZOOM_OUT, reset st interactionId)

/-- The pan-only recognizer's `onTouchesDown` interception: the recognizer is
failed when `scale.value <= 1`. -/
def panOnlyTouchesDownFails (scale : ℚ) : Bool := decide (scale ≤ 1)

/-- One touch sequence landing on the pan-only (single-contact) recognizer.
A recognizer failed in `onTouchesDown` never activates, so none of its
start/update/end handlers run and no pan callbacks fire (failure semantics
of the external gesture-recognition engine, which the engine relies on).
Otherwise the sequence snapshots `savedTranslate` at start (firing the
pan-start callback), applies the accumulated translation at update, and ends
(firing the pan-end completion path).  Returns the final state, whether the
pan-start callback fired, and whether the pan-end callback fired. -/
def panOnlySequence (st : EngineState) (translationX translationY : ℚ) :
    EngineState × Bool × Bool :=
  if panOnlyTouchesDownFails st.scale then
    (st, false, false)
  else
    let st1 := { st with savedTranslate := st.translate }
    let st2 := { st1 with
      translate := ⟨st1.savedTranslate.x + translationX,
                    st1.savedTranslate.y + translationY⟩ }
    (st2, true, true)

/-- The firing condition of the x-axis decay completion callback in
`panWhilePinchingGesture.onEnd` and `panOnlyGesture.onEnd`:
`event.velocityX >= event.velocityY`. -/
def decayXFires (velocityX velocityY : ℚ) : Bool := decide (velocityX ≥ velocityY)

/-- The firing condition of the y-axis decay completion callback:
`event.velocityY > event.velocityX`. -/
def decayYFires (velocityX velocityY : ℚ) : Bool := decide (velocityY > velocityX)

/-! ## Definitions: the pan gesture counter (`usePanGestureCount`) -/

/-- `startPan()`: increment the count. -/
def startPan (panGestureCount : ℤ) : ℤ := panGestureCount + 1

/-- `endPan()`: `panGestureCount > 0 && panGestureCount--`. -/
def endPan (panGestureCount : ℤ) : ℤ :=
  if panGestureCount > 0 then panGestureCount - 1 else panGestureCount

/-- `isPanning()`: the count is positive. -/
def isPanning (panGestureCount : ℤ) : Bool := decide (panGestureCount > 0)

/-- One call on the pan counter. -/
inductive PanOp
  | startPan
  | endPan
  deriving DecidableEq, Repr

/-- Apply one counter call. -/
def applyPanOp (panGestureCount : ℤ) : PanOp → ℤ
  | .startPan => startPan panGestureCount
  | .endPan => endPan panGestureCount

/-- Run a sequence of counter calls. -/
def runPanOps (panGestureCount : ℤ) (ops : List PanOp) : ℤ :=
  ops.foldl applyPanOp panGestureCount

/-! ## Definitions: sample inputs used by the witnesses -/

/-- A sample interaction-session id. -/
def sampleSid : String := ""

/-- The five target completions of one session, fed in a scrambled order. -/
def sampleFeed : List FeedItem :=
  [⟨sampleSid, .TRANSLATE_Y, 5, some true, some 0⟩,
   ⟨sampleSid, .FOCAL_X, 4, some true, some 0⟩,
   ⟨sampleSid, .SCALE, 3, some true, some 1⟩,
   ⟨sampleSid, .TRANSLATE_X, 2, some true, some 0⟩,
   ⟨sampleSid, .FOCAL_Y, 1, some true, some 0⟩]

/-- A sample engine state at rest (scale 1) with a recorded pinch focal. -/
def sampleState : EngineState :=
  ⟨1, 1, ⟨10, 20⟩, ⟨0, 0⟩, ⟨0, 0⟩, ⟨0, 0⟩, ⟨0, 0⟩⟩

/-- A sample zoomed-in engine state: scale 2, x-offset far out of bounds,
y-offset within bounds. -/
def sampleZoomedState : EngineState :=
  ⟨1, 2, ⟨0, 0⟩, ⟨0, 0⟩, ⟨0, 0⟩, ⟨0, 0⟩, ⟨100, 0⟩⟩

/-! ## Record and map lemmas -/

theorem get_set_self (r : PartialEndValues) (t : ANIMATION_VALUE) (e : EndValue) :
    (r.set t e).get t = some e := by
  cases t <;> rfl

theorem get_set_of_ne (r : PartialEndValues) {t t' : ANIMATION_VALUE} (e : EndValue)
    (h : t ≠ t') : (r.set t e).get t' = r.get t' := by
  cases t <;> cases t' <;> first | rfl | exact absurd rfl h

theorem missing_empty : missing PartialEndValues.empty = ANIMATION_VALUES := rfl

theorem missing_set (r : PartialEndValues) (t : ANIMATION_VALUE) (e : EndValue) :
    missing (r.set t e) = (missing r).erase t := by
  rcases r with ⟨s, fx, fy, tx, ty⟩
  cases t <;> cases s <;> cases fx <;> cases fy <;> cases tx <;> cases ty <;> rfl

theorem complete_iff_missing_nil (r : PartialEndValues) :
    isAnimationComplete r = true ↔ missing r = [] := by
  rcases r with ⟨s, fx, fy, tx, ty⟩
  cases s <;> cases fx <;> cases fy <;> cases tx <;> cases ty <;>
    simp [isAnimationComplete, missing, ANIMATION_VALUES, PartialEndValues.get]

theorem get_mem_values {r : PartialEndValues} {t : ANIMATION_VALUE} {e : EndValue}
    (h : r.get t = some e) : e ∈ r.values := by
  refine List.mem_filterMap.mpr ⟨some e, ?_, rfl⟩
  cases t <;> simp only [PartialEndValues.get] at h <;> rw [← h] <;> simp

theorem mem_values_exists {r : PartialEndValues} {e : EndValue} (h : e ∈ r.values) :
    ∃ t, r.get t = some e := by
  simp only [PartialEndValues.values] at h
  rcases List.mem_filterMap.mp h with ⟨o, ho, hoe⟩
  simp only [id] at hoe
  subst hoe
  simp only [List.mem_cons, List.not_mem_nil, or_false] at ho
  rcases ho with h1 | h1 | h1 | h1 | h1
  · exact ⟨.SCALE, h1.symm⟩
  · exact ⟨.FOCAL_X, h1.symm⟩
  · exact ⟨.FOCAL_Y, h1.symm⟩
  · exact ⟨.TRANSLATE_X, h1.symm⟩
  · exact ⟨.TRANSLATE_Y, h1.symm⟩

theorem finished_getD_iff (o : Option Bool) : o.getD false = true ↔ o = some true := by
  cases o <;> simp

theorem aggCompleted_iff (r : PartialEndValues) :
    aggCompleted r = true ↔ ∀ e ∈ r.values, e.finished = some true := by
  simp [aggCompleted, List.any_eq_true, finished_getD_iff]

theorem finalRec_cons (r : PartialEndValues) (i : FeedItem) (rest : List FeedItem) :
    finalRec r (i :: rest) = finalRec (r.set i.value (mkEndValue i)) rest := rfl

theorem finalRec_get_of_not_mem :
    ∀ (inputs : List FeedItem) (r : PartialEndValues) (t : ANIMATION_VALUE),
      t ∉ inputs.map FeedItem.value → (finalRec r inputs).get t = r.get t
  | [], _, _, _ => rfl
  | i :: rest, r, t, ht => by
    rw [finalRec_cons]
    have hne : i.value ≠ t := by
      intro hh
      exact ht (by simp [hh])
    rw [finalRec_get_of_not_mem rest _ t (by intro hh; exact ht (by simp [hh]))]
    exact get_set_of_ne r _ hne

theorem finalRec_get_self :
    ∀ (inputs : List FeedItem) (r : PartialEndValues),
      (inputs.map FeedItem.value).Nodup →
      ∀ i ∈ inputs, (finalRec r inputs).get i.value = some (mkEndValue i)
  | [], _, _, i, hi => absurd hi (List.not_mem_nil i)
  | j :: rest, r, hnd, i, hi => by
    rw [finalRec_cons]
    have hnd' : j.value ∉ rest.map FeedItem.value ∧ (rest.map FeedItem.value).Nodup := by
      rw [List.map_cons, List.nodup_cons] at hnd
      exact hnd
    rcases List.mem_cons.mp hi with rfl | hmem
    · rw [finalRec_get_of_not_mem rest _ _ hnd'.1]
      exact get_set_self r _ _
    · exact finalRec_get_self rest _ hnd'.2 i hmem

theorem finalRec_get_inv :
    ∀ (inputs : List FeedItem) (r : PartialEndValues) (t : ANIMATION_VALUE) (e : EndValue),
      (finalRec r inputs).get t = some e →
      (∃ i ∈ inputs, i.value = t ∧ e = mkEndValue i) ∨ r.get t = some e
  | [], _, _, _, h => Or.inr h
  | i :: rest, r, t, e, h => by
    rw [finalRec_cons] at h
    rcases finalRec_get_inv rest _ t e h with ⟨j, hj, hv, he⟩ | hbase
    · exact Or.inl ⟨j, List.mem_cons_of_mem _ hj, hv, he⟩
    · by_cases hv : i.value = t
      · subst hv
        rw [get_set_self] at hbase
        exact Or.inl ⟨i, List.mem_cons_self _ _, rfl, (Option.some_inj.mp hbase).symm⟩
      · rw [get_set_of_ne r _ hv] at hbase
        exact Or.inr hbase

theorem finalRec_completed_iff (inputs : List FeedItem)
    (hnd : (inputs.map FeedItem.value).Nodup) :
    aggCompleted (finalRec PartialEndValues.empty inputs) = true ↔
      ∀ i ∈ inputs, i.finished = some true := by
  rw [aggCompleted_iff]
  constructor
  · intro h i hi
    have hget := finalRec_get_self inputs PartialEndValues.empty hnd i hi
    simpa [mkEndValue] using h _ (get_mem_values hget)
  · intro h e he
    rcases mem_values_exists he with ⟨t, hget⟩
    rcases finalRec_get_inv inputs _ t e hget with ⟨i, hi, _, rfl⟩ | hbase
    · simpa [mkEndValue] using h i hi
    · cases t <;> simp [PartialEndValues.empty, PartialEndValues.get] at hbase

theorem sum_pair (a b : ℚ) : sum [a, b] = a + b := by
  simp [sum]

theorem mkEndValue_eta (i : FeedItem) :
    (⟨i.lastValue, i.finished, i.current⟩ : EndValue) = mkEndValue i := rfl

theorem lookupEV_single (sid : String) (r : PartialEndValues) :
    lookupEV [(sid, r)] sid = some r := by
  simp [lookupEV]

theorem insertEV_single (sid : String) (r r' : PartialEndValues) :
    insertEV [(sid, r)] sid r' = [(sid, r')] := by
  simp [insertEV]

theorem eraseEV_single (sid : String) (r : PartialEndValues) :
    eraseEV [(sid, r)] sid = [] := by
  simp [eraseEV]

theorem onAnimationEnd_single (sid : String) (r : PartialEndValues) (v : ANIMATION_VALUE)
    (lv : ℚ) (f : Option Bool) (c : Option ℚ) :
    onAnimationEnd true [(sid, r)] sid v lv f c =
      if isAnimationComplete (r.set v ⟨lv, f, c⟩) then
        ([], some (aggCompleted (r.set v ⟨lv, f, c⟩), r.set v ⟨lv, f, c⟩))
      else
        ([(sid, r.set v ⟨lv, f, c⟩)], none) := by
  simp only [onAnimationEnd, lookupEV_single, Option.getD_some, eraseEV_single,
    insertEV_single, if_true]

theorem runAgg_fill (sid : String) :
    ∀ (rest : List FeedItem) (r : PartialEndValues),
      (∀ i ∈ rest, i.interactionId = sid) →
      (rest.map FeedItem.value).Perm (missing r) →
      rest ≠ [] →
      runAgg true [(sid, r)] rest =
        ([], List.replicate (rest.length - 1) none ++
          [some (aggCompleted (finalRec r rest), finalRec r rest)]) := by
  intro rest
  induction rest with
  | nil => exact fun r _ _ hne => absurd rfl hne
  | cons i rest ih =>
    intro r hsid hperm _
    have hid : i.interactionId = sid := hsid i (List.mem_cons_self _ _)
    have hperm0 : (i.value :: rest.map FeedItem.value).Perm (missing r) := by
      simpa using hperm
    have hperm' : (rest.map FeedItem.value).Perm (missing (r.set i.value (mkEndValue i))) := by
      rw [missing_set]
      exact (List.cons_perm_iff_perm_erase.mp hperm0).2
    cases rest with
    | nil =>
      have hmiss : missing (r.set i.value (mkEndValue i)) = [] := by
        have h0 : (missing (r.set i.value (mkEndValue i))).Perm ([] : List ANIMATION_VALUE) :=
          hperm'.symm
        exact List.perm_nil.mp h0
      have hcomp : isAnimationComplete (r.set i.value (mkEndValue i)) = true :=
        (complete_iff_missing_nil _).mpr hmiss
      simp [runAgg, hid, onAnimationEnd_single, mkEndValue_eta, hcomp, finalRec]
    | cons j rest2 =>
      have hne2 : missing (r.set i.value (mkEndValue i)) ≠ [] := by
        intro hh
        have hlen := hperm'.length_eq
        rw [hh] at hlen
        simp at hlen
      have hcomp : isAnimationComplete (r.set i.value (mkEndValue i)) = false :=
        Bool.eq_false_iff.mpr fun hc => hne2 ((complete_iff_missing_nil _).mp hc)
      have hrec := ih (r.set i.value (mkEndValue i))
        (fun k hk => hsid k (List.mem_cons_of_mem _ hk)) hperm' (by simp)
      have hstep : runAgg true [(sid, r)] (i :: j :: rest2) =
          ((runAgg true [(sid, r.set i.value (mkEndValue i))] (j :: rest2)).1,
            none :: (runAgg true [(sid, r.set i.value (mkEndValue i))] (j :: rest2)).2) := by
        simp [runAgg, hid, onAnimationEnd_single, mkEndValue_eta, hcomp]
      rw [hstep, hrec]
      simp [finalRec_cons, List.replicate_succ]

/-! ## Claim theorems -/

/-- Claim C1: with a reset-completion callback supplied, feeding the
aggregator the completions of the five targets for one session, in any
order, starting from the empty record map, produces no callback on the
first four events and exactly one callback on the fifth; the callback's
`completed` flag is `true` iff every recorded target finished with
`finished = true`, and the session's record is deleted from the map
afterwards. -/
theorem aggregator_single_fire_after_fifth (sid : String) (inputs : List FeedItem)
    (hsid : ∀ i ∈ inputs, i.interactionId = sid)
    (hperm : (inputs.map FeedItem.value).Perm ANIMATION_VALUES) :
    runAgg true [] inputs =
      ([], List.replicate 4 none ++
        [some (aggCompleted (finalRec PartialEndValues.empty inputs),
               finalRec PartialEndValues.empty inputs)]) ∧
    (aggCompleted (finalRec PartialEndValues.empty inputs) = true ↔
      ∀ i ∈ inputs, i.finished = some true) ∧
    lookupEV (runAgg true [] inputs).1 sid = none := by
  have hnd : (inputs.map FeedItem.value).Nodup := hperm.nodup_iff.mpr (by decide)
  have hlen : inputs.length = 5 := by
    have hx := hperm.length_eq
    simpa using hx
  obtain ⟨i, rest, rfl⟩ : ∃ i rest, inputs = i :: rest := by
    cases inputs with
    | nil => simp at hlen
    | cons i rest => exact ⟨i, rest, rfl⟩
  have hid : i.interactionId = sid := hsid i (List.mem_cons_self _ _)
  have hperm0 : (i.value :: rest.map FeedItem.value).Perm ANIMATION_VALUES := by
    simpa using hperm
  have hperm' : (rest.map FeedItem.value).Perm
      (missing (PartialEndValues.empty.set i.value (mkEndValue i))) := by
    rw [missing_set, missing_empty]
    exact (List.cons_perm_iff_perm_erase.mp hperm0).2
  have hrlen : rest.length = 4 := by simpa using hlen
  have hne2 : rest ≠ [] := by
    intro hh
    rw [hh] at hrlen
    simp at hrlen
  have hcompF : isAnimationComplete (PartialEndValues.empty.set i.value (mkEndValue i)) = false := by
    refine Bool.eq_false_iff.mpr fun hc => ?_
    have hmiss := (complete_iff_missing_nil _).mp hc
    have hlen2 := hperm'.length_eq
    rw [hmiss] at hlen2
    simp [hrlen] at hlen2
  have hstep : runAgg true [] (i :: rest) =
      ((runAgg true [(sid, PartialEndValues.empty.set i.value (mkEndValue i))] rest).1,
        none :: (runAgg true [(sid, PartialEndValues.empty.set i.value (mkEndValue i))] rest).2) := by
    simp [runAgg, hid, onAnimationEnd, lookupEV, insertEV, hcompF, mkEndValue_eta]
  have hrec := runAgg_fill sid rest (PartialEndValues.empty.set i.value (mkEndValue i))
    (fun k hk => hsid k (List.mem_cons_of_mem _ hk)) hperm' hne2
  refine ⟨?_, finalRec_completed_iff _ hnd, ?_⟩
  · rw [hstep, hrec]
    simp [finalRec_cons, hrlen, List.replicate_succ]
  · rw [hstep, hrec]
    simp [lookupEV]

/-- Witness for C1: the five completions of `sampleFeed`, fed in a scrambled
order, satisfy the hypotheses and fire the aggregated callback exactly once,
after the fifth. -/
theorem aggregator_single_fire_after_fifth_witness :
    (∀ i ∈ sampleFeed, i.interactionId = sampleSid) ∧
    (sampleFeed.map FeedItem.value).Perm ANIMATION_VALUES ∧
    (runAgg true [] sampleFeed =
      ([], List.replicate 4 none ++
        [some (aggCompleted (finalRec PartialEndValues.empty sampleFeed),
               finalRec PartialEndValues.empty sampleFeed)]) ∧
     (aggCompleted (finalRec PartialEndValues.empty sampleFeed) = true ↔
       ∀ i ∈ sampleFeed, i.finished = some true) ∧
     lookupEV (runAgg true [] sampleFeed).1 sampleSid = none) :=
  ⟨by decide, by decide,
   aggregator_single_fire_after_fifth sampleSid sampleFeed (by decide) (by decide)⟩

/-- Claim C10: with no reset-completion callback supplied, `onAnimationEnd`
is a complete no-op: the per-session record map is never touched and no
callback payload is ever produced, for any sequence of events from any
starting map. -/
theorem aggregator_noop_without_callback (st : AggState) (inputs : List FeedItem) :
    runAgg false st inputs = (st, List.replicate inputs.length none) ∧
    (∀ (interactionId : String) (value : ANIMATION_VALUE) (lastValue : ℚ)
      (finished : Option Bool) (current : Option ℚ),
      onAnimationEnd false st interactionId value lastValue finished current = (st, none)) := by
  constructor
  · induction inputs generalizing st with
    | nil => rfl
    | cons i rest ih => simp [runAgg, onAnimationEnd, ih, List.replicate_succ]
  · intro interactionId value lastValue finished current
    rfl

/-- Claim C3: `reset()` reads the current interaction id, synchronously
zeroes the saved snapshots (`savedScale` to 1, `initialFocal`, `savedFocal`,
`savedTranslate` to 0) and starts exactly five timing animations with
targets scale to 1, focal.x to 0, focal.y to 0, translate.x to 0,
translate.y to 0, each routed through the aggregator under that interaction
id and its target name; after all five settle uninterrupted, scale = 1 and
focal = translate = (0, 0), and the aggregated reset-completion callback
fires exactly once (after the fifth completion) with `finished = true`. -/
theorem reset_settles_and_fires_once (st : EngineState) (sid : String) :
    ((reset st sid).2).map Anim.value = ANIMATION_VALUES ∧
    ((reset st sid).2).map Anim.toValue = [1, 0, 0, 0, 0] ∧
    ((reset st sid).2).map Anim.interactionId = [sid, sid, sid, sid, sid] ∧
    (reset st sid).1.savedScale = 1 ∧
    (reset st sid).1.initialFocal = ⟨0, 0⟩ ∧
    (reset st sid).1.savedFocal = ⟨0, 0⟩ ∧
    (reset st sid).1.savedTranslate = ⟨0, 0⟩ ∧
    (settleAnims (reset st sid).1 (reset st sid).2).scale = 1 ∧
    (settleAnims (reset st sid).1 (reset st sid).2).focal = ⟨0, 0⟩ ∧
    (settleAnims (reset st sid).1 (reset st sid).2).translate = ⟨0, 0⟩ ∧
    runAgg true [] (settleFeed (reset st sid).2) =
      ([], [none, none, none, none, some (true, resetRecord st)]) := by
  refine ⟨rfl, rfl, rfl, rfl, rfl, rfl, rfl, rfl, rfl, rfl, ?_⟩
  simp [reset, settleFeed, runAgg, onAnimationEnd, lookupEV, insertEV, eraseEV,
    isAnimationComplete, ANIMATION_VALUES, PartialEndValues.set, PartialEndValues.empty,
    PartialEndValues.get, aggCompleted, PartialEndValues.values, resetRecord]

/-- Claim C2: on pinch-update the engine sets
`scale = clamp(savedScale * event.scale, minScale, maxScale)` and, per axis,
`focal = savedFocal + (center - initialFocal) * (scale - savedScale)` with
the clamped scale; in particular with `savedScale = 1`, `savedFocal = (0,0)`
and an unclamped target `s`, the focal becomes exactly
`((cx - fx) * (s - 1), (cy - fy) * (s - 1))`. -/
theorem pinch_update_reanchoring (minScale maxScale : ℚ) (center : Vec)
    (st : EngineState) (eventScale : ℚ) :
    ((pinchOnUpdate minScale maxScale center st eventScale).scale =
        clamp (st.savedScale * eventScale) minScale maxScale ∧
      (pinchOnUpdate minScale maxScale center st eventScale).focal.x =
        st.savedFocal.x + (center.x - st.initialFocal.x) *
          (clamp (st.savedScale * eventScale) minScale maxScale - st.savedScale) ∧
      (pinchOnUpdate minScale maxScale center st eventScale).focal.y =
        st.savedFocal.y + (center.y - st.initialFocal.y) *
          (clamp (st.savedScale * eventScale) minScale maxScale - st.savedScale)) ∧
    (st.savedScale = 1 → st.savedFocal = ⟨0, 0⟩ →
      minScale ≤ eventScale → eventScale ≤ maxScale →
      (pinchOnUpdate minScale maxScale center st eventScale).scale = eventScale ∧
      (pinchOnUpdate minScale maxScale center st eventScale).focal =
        ⟨(center.x - st.initialFocal.x) * (eventScale - 1),
         (center.y - st.initialFocal.y) * (eventScale - 1)⟩) := by
  refine ⟨⟨rfl, rfl, rfl⟩, ?_⟩
  intro h1 h2 h3 h4
  have hc : clamp (st.savedScale * eventScale) minScale maxScale = eventScale := by
    rw [h1, one_mul, clamp, max_eq_right h3, min_eq_left h4]
  constructor
  · show clamp (st.savedScale * eventScale) minScale maxScale = eventScale
    exact hc
  · show (⟨st.savedFocal.x + (center.x - st.initialFocal.x) *
        (clamp (st.savedScale * eventScale) minScale maxScale - st.savedScale),
      st.savedFocal.y + (center.y - st.initialFocal.y) *
        (clamp (st.savedScale * eventScale) minScale maxScale - st.savedScale)⟩ : Vec) = _
    rw [hc, h1, h2]
    simp

/-- Witness for C2: a pinch from rest to scale 3 inside the clamp range,
with center (100, 200) and initial focal (10, 20). -/
theorem pinch_update_reanchoring_witness :
    sampleState.savedScale = 1 ∧ sampleState.savedFocal = ⟨0, 0⟩ ∧
    (1 : ℚ) ≤ 3 ∧ (3 : ℚ) ≤ 5 ∧
    (pinchOnUpdate 1 5 ⟨100, 200⟩ sampleState 3).scale = 3 ∧
    (pinchOnUpdate 1 5 ⟨100, 200⟩ sampleState 3).focal =
      ⟨(100 - 10) * (3 - 1), (200 - 20) * (3 - 1)⟩ := by
  have h := (pinch_update_reanchoring 1 5 ⟨100, 200⟩ sampleState 3).2
    rfl rfl (by norm_num) (by norm_num)
  exact ⟨rfl, rfl, by norm_num, by norm_num, h.1, by rw [h.2]; rfl⟩

/-- Claim C8: for all widths, heights and scales (including scales below 1),
`limits.right = width * (scale - 1) / 2`, `limits.bottom =
height * (scale - 1) / 2`, and left/top are exactly their negations. -/
theorem limits_antisymmetric (w h s : ℚ) :
    limits.right w s = w * (s - 1) / 2 ∧
    limits.bottom h s = h * (s - 1) / 2 ∧
    limits.left w s = -limits.right w s ∧
    limits.top h s = -limits.bottom h s :=
  ⟨rfl, rfl, rfl, rfl⟩

/-- Claim C7: programmatic `zoom({scale, x, y})` with target scale above 1
notifies the zoom-in observer and settles scale at the target and focal at
`(center - {x, y}) * (scale - 1)` per axis, leaving translate untouched;
with target scale at most 1 it notifies zoom-out and calls `reset()`. -/
theorem zoom_cases (center : Vec) (sid : String) (st : EngineState)
    (eventScale eventX eventY : ℚ) :
    (eventScale > 1 →
      (zoom center sid st eventScale eventX eventY).1 = ZOOM_TYPE.ZOOM_IN ∧
      (zoom center sid st eventScale eventX eventY).2.1.scale = eventScale ∧
      (zoom center sid st eventScale eventX eventY).2.1.focal =
        ⟨(center.x - eventX) * (eventScale - 1), (center.y - eventY) * (eventScale - 1)⟩ ∧
      (zoom center sid st eventScale eventX eventY).2.1.translate = st.translate ∧
      (zoom center sid st eventScale eventX eventY).2.2 = []) ∧
    (eventScale ≤ 1 →
      (zoom center sid st eventScale eventX eventY).1 = ZOOM_TYPE.ZOOM_OUT ∧
      (zoom center sid st eventScale eventX eventY).2 = reset st sid) := by
  constructor
  · intro hgt
    simp [zoom, hgt]
  · intro hle
    simp [zoom, not_lt.mpr hle]

/-- Witness for C7: zooming to scale 3 at point (40, 50) with center
(100, 200), and zooming out to scale 1. -/
theorem zoom_cases_witness :
    ((3 : ℚ) > 1 ∧
      (zoom ⟨100, 200⟩ sampleSid sampleState 3 40 50).1 = ZOOM_TYPE.ZOOM_IN ∧
      (zoom ⟨100, 200⟩ sampleSid sampleState 3 40 50).2.1.scale = 3 ∧
      (zoom ⟨100, 200⟩ sampleSid sampleState 3 40 50).2.1.focal =
        ⟨(100 - 40) * (3 - 1), (200 - 50) * (3 - 1)⟩ ∧
      (zoom ⟨100, 200⟩ sampleSid sampleState 3 40 50).2.1.translate = sampleState.translate) ∧
    ((1 : ℚ) ≤ 1 ∧
      (zoom ⟨100, 200⟩ sampleSid sampleState 1 40 50).2 = reset sampleState sampleSid) := by
  have h1 := (zoom_cases ⟨100, 200⟩ sampleSid sampleState 3 40 50).1 (by norm_num)
  have h2 := (zoom_cases ⟨100, 200⟩ sampleSid sampleState 1 40 50).2 le_rfl
  exact ⟨⟨by norm_num, h1.1, h1.2.1, h1.2.2.1, h1.2.2.2.1⟩, ⟨le_rfl, h2.2⟩⟩

/-- Claim C5: a touch sequence landing on the pan-only recognizer while
`scale <= 1` is failed immediately in `onTouchesDown`; the transform state
is unchanged and neither the pan-start nor the pan-end callback fires. -/
theorem pan_only_inert_at_rest (st : EngineState) (translationX translationY : ℚ)
    (h : st.scale ≤ 1) :
    panOnlyTouchesDownFails st.scale = true ∧
    panOnlySequence st translationX translationY = (st, false, false) := by
  constructor
  · exact decide_eq_true h
  · simp [panOnlySequence, panOnlyTouchesDownFails, h]

/-- Witness for C5: a single-finger drag of (30, 40) at scale 1 is inert. -/
theorem pan_only_inert_at_rest_witness :
    sampleState.scale ≤ 1 ∧
    panOnlyTouchesDownFails sampleState.scale = true ∧
    panOnlySequence sampleState 30 40 = (sampleState, false, false) :=
  ⟨le_rfl, pan_only_inert_at_rest sampleState 30 40 le_rfl⟩

/-- Claim C6: when `scale > 1`, `moveIntoView` leaves scale untouched and
handles each axis independently (for a nonnegative container dimension, so
that the axis limit is nonnegative): an axis whose combined offset
`translate + focal` stays within the limit in absolute value is left
entirely unchanged, while an axis whose combined offset exceeds the limit
has translate settled at the exceeded limit and focal at 0.  When
`scale <= 1` it delegates entirely to `reset()`. -/
theorem move_into_view_per_axis (w h : ℚ) (sid : String) (st : EngineState) :
    (st.scale ≤ 1 → moveIntoView w h sid st = reset st sid) ∧
    (st.scale > 1 →
      (moveIntoView w h sid st).1.scale = st.scale ∧
      (moveIntoView w h sid st).2 = [] ∧
      (|st.translate.x + st.focal.x| ≤ limits.right w st.scale →
        (moveIntoView w h sid st).1.translate.x = st.translate.x ∧
        (moveIntoView w h sid st).1.focal.x = st.focal.x) ∧
      (st.translate.x + st.focal.x > limits.right w st.scale →
        (moveIntoView w h sid st).1.translate.x = limits.right w st.scale ∧
        (moveIntoView w h sid st).1.focal.x = 0) ∧
      (0 ≤ w → st.translate.x + st.focal.x < limits.left w st.scale →
        (moveIntoView w h sid st).1.translate.x = limits.left w st.scale ∧
        (moveIntoView w h sid st).1.focal.x = 0) ∧
      (|st.translate.y + st.focal.y| ≤ limits.bottom h st.scale →
        (moveIntoView w h sid st).1.translate.y = st.translate.y ∧
        (moveIntoView w h sid st).1.focal.y = st.focal.y) ∧
      (st.translate.y + st.focal.y > limits.bottom h st.scale →
        (moveIntoView w h sid st).1.translate.y = limits.bottom h st.scale ∧
        (moveIntoView w h sid st).1.focal.y = 0) ∧
      (0 ≤ h → st.translate.y + st.focal.y < limits.top h st.scale →
        (moveIntoView w h sid st).1.translate.y = limits.top h st.scale ∧
        (moveIntoView w h sid st).1.focal.y = 0)) := by
  constructor
  · intro hle
    simp [moveIntoView, not_lt.mpr hle]
  · intro hgt
    have hrw : limits.right w st.scale = w * (st.scale - 1) / 2 := rfl
    have hbw : limits.bottom h st.scale = h * (st.scale - 1) / 2 := rfl
    simp only [moveIntoView, if_pos hgt, sum_pair, limits.left, limits.top]
    refine ⟨?_, ?_, ?_, ?_, ?_, ?_, ?_, ?_⟩
    · split_ifs <;> rfl
    · trivial
    · intro hin
      have habs := abs_le.mp hin
      split_ifs <;>
        first
          | exact ⟨rfl, rfl⟩
          | (exfalso; linarith [habs.1, habs.2])
    · intro hcond
      split_ifs <;> exact ⟨rfl, rfl⟩
    · intro hw hcond
      have hr0 : 0 ≤ limits.right w st.scale := by
        rw [hrw]
        have hm := mul_nonneg hw (by linarith : (0 : ℚ) ≤ st.scale - 1)
        linarith
      split_ifs <;>
        first
          | exact ⟨rfl, rfl⟩
          | (exfalso; linarith)
    · intro hin
      have habs := abs_le.mp hin
      split_ifs <;>
        first
          | exact ⟨rfl, rfl⟩
          | (exfalso; linarith [habs.1, habs.2])
    · intro hcond
      split_ifs <;> exact ⟨rfl, rfl⟩
    · intro hh hcond
      have hb0 : 0 ≤ limits.bottom h st.scale := by
        rw [hbw]
        have hm := mul_nonneg hh (by linarith : (0 : ℚ) ≤ st.scale - 1)
        linarith
      split_ifs <;>
        first
          | exact ⟨rfl, rfl⟩
          | (exfalso; linarith)

/-- Witness for C6: at scale 2 in a 100-wide, 100-high container, an
x-offset of 100 exceeds the right limit 50, so translate.x settles at 50
and focal.x at 0, while the in-bounds y axis is untouched; a state at
scale 1 delegates to `reset()`. -/
theorem move_into_view_per_axis_witness :
    ((1 : ℚ) < 2 ∧ (0 : ℚ) ≤ 100 ∧
      sampleZoomedState.translate.x + sampleZoomedState.focal.x >
        limits.right 100 sampleZoomedState.scale ∧
      |sampleZoomedState.translate.y + sampleZoomedState.focal.y| ≤
        limits.bottom 100 sampleZoomedState.scale ∧
      (moveIntoView 100 100 sampleSid sampleZoomedState).1.translate.x =
        limits.right 100 sampleZoomedState.scale ∧
      (moveIntoView 100 100 sampleSid sampleZoomedState).1.focal.x = 0 ∧
      (moveIntoView 100 100 sampleSid sampleZoomedState).1.translate.y =
        sampleZoomedState.translate.y ∧
      (moveIntoView 100 100 sampleSid sampleZoomedState).1.focal.y =
        sampleZoomedState.focal.y ∧
      (moveIntoView 100 100 sampleSid sampleZoomedState).1.scale =
        sampleZoomedState.scale) ∧
    (sampleState.scale ≤ 1 ∧
      moveIntoView 100 100 sampleSid sampleState = reset sampleState sampleSid) := by
  have hz := (move_into_view_per_axis 100 100 sampleSid sampleZoomedState).2
    (by norm_num [sampleZoomedState])
  have hr := (move_into_view_per_axis 100 100 sampleSid sampleState).1 le_rfl
  have hxgt : sampleZoomedState.translate.x + sampleZoomedState.focal.x >
      limits.right 100 sampleZoomedState.scale := by
    norm_num [sampleZoomedState, limits.right]
  have hyin : |sampleZoomedState.translate.y + sampleZoomedState.focal.y| ≤
      limits.bottom 100 sampleZoomedState.scale := by
    norm_num [sampleZoomedState, limits.bottom]
  have hx := hz.2.2.2.1 hxgt
  have hy := hz.2.2.2.2.2.1 hyin
  exact ⟨⟨by norm_num, by norm_num, hxgt, hyin, hx.1, hx.2, hy.1, hy.2, hz.1⟩,
    ⟨le_rfl, hr⟩⟩

/-- Counterexample for C4: at release velocities `(-5, 1)` the y-axis decay
callback fires the pan-end completion even though the x-axis release speed
(5) strictly dominates the y-axis release speed (1); the firing axis is
therefore not determined by speed dominance. -/
theorem decay_speed_dominance_counterexample :
    decayYFires (-5) 1 = true ∧ decayXFires (-5) 1 = false ∧
    |(-5 : ℚ)| > |(1 : ℚ)| := by
  refine ⟨?_, ?_, ?_⟩ <;> norm_num [decayXFires, decayYFires]

/-- Claim C4 (amended): each axis's end-of-decay callback fires the pan-end
completion exactly when that axis wins the signed velocity comparison — the
x axis fires iff `velocityX >= velocityY` and the y axis fires iff
`velocityY > velocityX` — and these two conditions are mutually exclusive
and exhaustive, so exactly one pan-end completion fires per pan. -/
theorem decay_exactly_one_completion (velocityX velocityY : ℚ) :
    decayXFires velocityX velocityY = !(decayYFires velocityX velocityY) ∧
    (decayXFires velocityX velocityY = true ↔ velocityY ≤ velocityX) ∧
    (decayYFires velocityX velocityY = true ↔ velocityX < velocityY) := by
  have h1 : decayXFires velocityX velocityY = !(decayYFires velocityX velocityY) := by
    show decide (velocityX ≥ velocityY) = !(decide (velocityY > velocityX))
    rw [← decide_not, decide_eq_decide]
    exact not_lt.symm
  have h2 : decayXFires velocityX velocityY = true ↔ velocityY ≤ velocityX := by
    simp [decayXFires, ge_iff_le]
  have h3 : decayYFires velocityX velocityY = true ↔ velocityX < velocityY := by
    simp [decayYFires]
  exact ⟨h1, h2, h3⟩

/-- Witness for C4 (amended): at velocities `(2, 1)` the x axis fires and
the y axis does not. -/
theorem decay_exactly_one_completion_witness :
    decayXFires 2 1 = !(decayYFires 2 1) ∧
    (decayXFires 2 1 = true ↔ (1 : ℚ) ≤ 2) ∧
    (decayYFires 2 1 = true ↔ (2 : ℚ) < 1) :=
  decay_exactly_one_completion 2 1

/-! ## Pan counter lemmas -/

theorem runPanOps_nonneg : ∀ (ops : List PanOp) (c : ℤ), 0 ≤ c → 0 ≤ runPanOps c ops
  | [], _, hc => hc
  | op :: rest, c, hc => by
    have h1 : 0 ≤ applyPanOp c op := by
      cases op
      · simp only [applyPanOp, startPan]
        omega
      · simp only [applyPanOp, endPan]
        split <;> omega
    exact runPanOps_nonneg rest _ h1

theorem runPanOps_replicate_start (n : ℕ) :
    ∀ c : ℤ, runPanOps c (List.replicate n PanOp.startPan) = c + n := by
  induction n with
  | zero => intro c; simp [runPanOps]
  | succ n ih =>
    intro c
    rw [List.replicate_succ]
    show runPanOps (startPan c) (List.replicate n PanOp.startPan) = _
    rw [ih (startPan c), startPan]
    push_cast
    ring

theorem runPanOps_replicate_end (m : ℕ) :
    ∀ c : ℤ, 0 ≤ c → runPanOps c (List.replicate m PanOp.endPan) = max 0 (c - m) := by
  induction m with
  | zero =>
    intro c hc
    simp [runPanOps]
    omega
  | succ m ih =>
    intro c hc
    rw [List.replicate_succ]
    show runPanOps (endPan c) (List.replicate m PanOp.endPan) = _
    by_cases hpos : c > 0
    · rw [endPan, if_pos hpos, ih (c - 1) (by omega)]
      have harith : c - 1 - (m : ℤ) = c - ((m : ℤ) + 1) := by ring
      rw [harith]
      push_cast
      ring_nf
    · rw [endPan, if_neg hpos, ih c hc]
      have hc0 : c = 0 := by omega
      subst hc0
      rw [max_eq_left (by omega), max_eq_left (by omega)]

/-- Claim C9: the pan counter starting from 0 never goes negative:
`startPan()` increments, `endPan()` decrements only when the count is
positive, a run of `endPan()` calls outnumbering the preceding `startPan()`
calls leaves the count at exactly 0, and `isPanning()` is true exactly when
the count is positive. -/
theorem pan_counter_never_negative :
    (∀ ops : List PanOp, 0 ≤ runPanOps 0 ops) ∧
    (∀ c : ℤ, startPan c = c + 1) ∧
    (∀ c : ℤ, 0 < c → endPan c = c - 1) ∧
    (∀ c : ℤ, c ≤ 0 → endPan c = c) ∧
    (∀ n m : ℕ, n ≤ m →
      runPanOps 0 (List.replicate n PanOp.startPan ++ List.replicate m PanOp.endPan) = 0) ∧
    (∀ c : ℤ, isPanning c = true ↔ 0 < c) := by
  refine ⟨fun ops => runPanOps_nonneg ops 0 le_rfl, fun c => rfl, ?_, ?_, ?_, ?_⟩
  · intro c hc
    rw [endPan, if_pos hc]
  · intro c hc
    rw [endPan, if_neg (by omega)]
  · intro n m hnm
    have hsplit : runPanOps 0 (List.replicate n PanOp.startPan ++ List.replicate m PanOp.endPan) =
        runPanOps (runPanOps 0 (List.replicate n PanOp.startPan))
          (List.replicate m PanOp.endPan) := by
      simp [runPanOps, List.foldl_append]
    rw [hsplit, runPanOps_replicate_start, runPanOps_replicate_end m _ (by positivity),
      max_eq_left (by omega)]
  · intro c
    simp [isPanning]

/-- Witness for C9: one `startPan()` followed by two `endPan()` calls leaves
the count at 0, and `endPan` decrements a positive count. -/
theorem pan_counter_never_negative_witness :
    (1 : ℕ) ≤ 2 ∧
    runPanOps 0 (List.replicate 1 PanOp.startPan ++ List.replicate 2 PanOp.endPan) = 0 ∧
    (0 : ℤ) < 1 ∧ endPan 1 = 0 := by
  refine ⟨by norm_num, pan_counter_never_negative.2.2.2.2.1 1 2 (by norm_num),
    by norm_num, ?_⟩
  rw [pan_counter_never_negative.2.2.1 1 (by norm_num)]
  norm_num

end ImageZoom
